import Mathlib

/-!
Verification development for the PLIC post-processing notebook
(`notebooks/process_plic_data.ipynb`).

The notebook defines three functions:

* `assemble_shape(path, iteration, shape_2D)` — glob all files whose name
  starts with `points_<iteration, zero-padded to 6 digits>_n`, sort the
  matches, read each with
  `pd.read_csv(file, sep=" ", names=columns, engine='c', dtype=np.float32)`,
  `pd.concat` the frames, `dropna`, `reset_index(drop=True)`.
* `get_iterations(path)` — glob `*_n000.txt`, extract
  `int(basename.split("_")[1])` for each match, return the sorted list.
* `process_shape(source, target, iteration, shape_2D)` — assemble, then
  `to_pickle` the frame to `target/plic_<iteration, 6 digits>.pkl`.

Shallow-embedding conventions used throughout:

* A directory is its listing: a `List (String × List String)` of
  (file name, file lines).  `glob` on a missing directory returns `[]`,
  exactly like a directory with no matching file, so a missing source
  directory is embedded as the empty listing.  File contents are given
  as a list of lines (newline splitting is not re-modelled).
* Python exceptions are `Except`:  `pd.concat([])` raises `ValueError`
  ("No objects to concatenate"); `pd.read_csv` with `dtype=np.float32`
  raises `ValueError` on a non-numeric field and `EmptyDataError` on a
  file with no data lines; `int(s)` raises `ValueError` on a non-integer
  string.
* A `float32` cell is modelled by the source token it was parsed from
  (`some tok`), and `NaN` by `none`; no claim below depends on
  identifying distinct tokens that denote the same `float32` value.
* String scanning primitives (`split`, startsWith, endsWith, ordering)
  are defined structurally on `List Char` so they can be reasoned about
  by induction; they implement exactly the Python semantics used by the
  notebook (`str.split(sep)` keeps empty fields; `sorted` on strings is
  lexicographic by code point; `glob` does not match names starting
  with a dot).
-/

/-- Python `s.split(sep)` on character lists: splits at every occurrence
of `sep`, keeping empty fields; `pySplit sep [] = [[]]` like `"".split`. -/
def pySplit (sep : Char) : List Char → List (List Char)
  | [] => [[]]
  | c :: cs =>
    match pySplit sep cs with
    | [] => [[c]]
    | g :: gs => if c = sep then [] :: g :: gs else (c :: g) :: gs

/-- Tests whether `p` is an initial segment of `s` (Python `s.startswith`). -/
def startsWithL : List Char → List Char → Bool
  | [], _ => true
  | _ :: _, [] => false
  | p :: ps, c :: cs => p = c && startsWithL ps cs

/-- Tests whether `p` is a final segment of `s` (Python `s.endswith`). -/
def endsWithL (p s : List Char) : Bool :=
  startsWithL p.reverse s.reverse

/-- Lexicographic (code-point) order on character lists, the order Python
uses to compare strings in `sorted`.  Non-strict version. -/
def lexLe : List Char → List Char → Bool
  | [], _ => true
  | _ :: _, [] => false
  | a :: as, b :: bs => if a = b then lexLe as bs else decide (a < b)

/-- Lexicographic (code-point) order on character lists, strict version. -/
def lexLt : List Char → List Char → Bool
  | [], [] => false
  | [], _ :: _ => true
  | _ :: _, [] => false
  | a :: as, b :: bs => if a = b then lexLt as bs else decide (a < b)

/-- Decimal digit `d` (with `d < 10`) as a character. -/
def digitChar (d : Nat) : Char := Char.ofNat (48 + d)

/-- Auxiliary for `decChars`: big-endian decimal digits of `n`, with a
structural fuel argument so the definition evaluates by kernel
reduction. -/
def decCharsAux : Nat → Nat → List Char
  | 0, _ => []
  | fuel + 1, n =>
    if n = 0 then [] else decCharsAux fuel (n / 10) ++ [digitChar (n % 10)]

/-- Decimal representation of a natural number as characters, most
significant digit first; `0` is rendered as `"0"` like Python `str`. -/
def decChars (n : Nat) : List Char :=
  if n = 0 then ['0'] else decCharsAux n n

/-- Python format spec `0wd`: the decimal representation of `n`,
left-padded with `'0'` to width `w`. -/
def padChars (w n : Nat) : List Char :=
  List.replicate (w - (decChars n).length) '0' ++ decChars n

/-- Python `"(06d-format)".format(n)` as a string: 6-wide zero padding. -/
def pad6 (n : Nat) : String := ⟨padChars 6 n⟩

/-- Python `"(03d-format)".format(n)` as a string: 3-wide zero padding. -/
def pad3 (n : Nat) : String := ⟨padChars 3 n⟩

/-- Value of a big-endian list of digit characters (used only in proofs,
to invert `padChars`). -/
def decodeChars (l : List Char) : Nat :=
  l.foldl (fun a c => 10 * a + (c.toNat - 48)) 0

/-- Spellings pandas' parser maps to `NaN` rather than attempting a float
conversion (the relevant entries of the default `na_values`, plus the
empty field produced by consecutive separators). -/
def naStrings : List (List Char) :=
  [[], "nan".data, "NaN".data, "NA".data, "N/A".data, "n/a".data,
   "null".data, "NULL".data, "None".data, "<NA>".data]

/-- Tests whether a token is one of the `NaN` spellings. -/
def isNAToken (t : List Char) : Bool :=
  naStrings.contains t

/-- Tests whether every character is a decimal digit and the list is
nonempty. -/
def allDigits (l : List Char) : Bool :=
  !l.isEmpty && l.all Char.isDigit

/-- Unsigned decimal mantissa: `digits`, `digits.digits`, `digits.` or
`.digits`. -/
def isMantissa (l : List Char) : Bool :=
  match pySplit '.' l with
  | [a] => allDigits a
  | [a, b] => (!a.isEmpty || !b.isEmpty) && a.all Char.isDigit && b.all Char.isDigit
  | _ => false

/-- Decimal digits with an optional sign (exponent part of a float). -/
def isSignedDigits (l : List Char) : Bool :=
  match l with
  | '+' :: r => allDigits r
  | '-' :: r => allDigits r
  | r => allDigits r

/-- Tests whether a token is accepted by pandas' `float32` conversion:
optional sign, then either an infinity word or a decimal mantissa with an
optional exponent. -/
def isFloatTok (t : List Char) : Bool :=
  let u := match t with
    | '+' :: r => r
    | '-' :: r => r
    | r => r
  let v := u.map Char.toLower
  if v = "inf".data || v = "infinity".data then true
  else
    match pySplit 'e' v with
    | [m] => isMantissa m
    | [m, ex] => isMantissa m && isSignedDigits ex
    | _ => false

/-- One parsed cell: `some tok` for a numeric token (the `float32` value is
identified with its source token), `none` for `NaN`.  A token that is
neither numeric nor an `NaN` spelling makes the `float32` conversion of
`pd.read_csv` raise `ValueError`, embedded as `Except.error`. -/
def parseCell (t : List Char) : Except Unit (Option String) :=
  if isNAToken t then .ok none
  else if isFloatTok t then .ok (some ⟨t⟩)
  else .error ()

/-- Parses a list of field tokens into cells, propagating a conversion
error. -/
def parseCells : List (List Char) → Except Unit (List (Option String))
  | [] => .ok []
  | t :: ts =>
    match parseCell t with
    | .error e => .error e
    | .ok c =>
      match parseCells ts with
      | .error e => .error e
      | .ok cs => .ok (c :: cs)

/-- Parses one line of a shard file under an `ncols`-column schema, as
`pd.read_csv(..., sep=" ", names=columns)` does: a blank line yields no
record (`skip_blank_lines`); otherwise the line is split at every single
space; when there are more fields than columns the leading extras become
the (later discarded) index, so the last `ncols` fields are the data; when
there are fewer, the missing trailing columns are `NaN`. -/
def parseLine (ncols : Nat) (line : String) : Except Unit (Option (List (Option String))) :=
  if line.data = [] then .ok none
  else
    match parseCells ((pySplit ' ' line.data).drop ((pySplit ' ' line.data).length - ncols)) with
    | .error e => .error e
    | .ok cells => .ok (some (cells ++ List.replicate (ncols - cells.length) none))

/-- Parses the lines of a shard file into its data rows, in order, skipping
blank lines and propagating the first conversion error. -/
def parseRows (ncols : Nat) : List String → Except Unit (List (List (Option String)))
  | [] => .ok []
  | l :: ls =>
    match parseLine ncols l with
    | .error e => .error e
    | .ok none => parseRows ncols ls
    | .ok (some r) =>
      match parseRows ncols ls with
      | .error e => .error e
      | .ok rs => .ok (r :: rs)

/-- A pandas `DataFrame` as the notebook uses it: named columns, a common
element dtype, and indexed rows. -/
structure DF where
  cols : List String
  dtype : String
  rows : List (Nat × List (Option String))
deriving Repr, DecidableEq

/-- Embedding of
`pd.read_csv(file, sep=" ", names=columns, engine='c', dtype=np.float32)`
on the lines of one shard file.  A file with no data line at all makes
pandas raise `EmptyDataError` (the tokenizer finds no columns), embedded
as `Except.error`; otherwise the rows are indexed `0, 1, ...` in file
order and every column has dtype `float32`. -/
def read_csv (columns : List String) (lines : List String) : Except Unit DF :=
  if lines.all (fun l => l.data = []) then .error ()
  else
    match parseRows columns.length lines with
    | .error e => .error e
    | .ok rs => .ok ⟨columns, "float32", rs.enum⟩

/-- Name order on directory entries: lexicographic on the file name.
Sorting the glob matches by full path is the same as sorting by name,
since all matches share the directory part of the path as a common
string prefix. -/
def nameLe (f g : String × List String) : Prop :=
  lexLe f.1.data g.1.data = true

instance : DecidableRel nameLe :=
  fun f g => inferInstanceAs (Decidable (lexLe f.1.data g.1.data = true))

/-- Shard-file name prefix for one iteration:
`path + "/points_(06d-format)_n".format(iteration)` without the
directory part. -/
def base_name (iteration : Nat) : String :=
  "points_" ++ pad6 iteration ++ "_n"

/-- Embedding of `sorted(glob.glob(base_name + "*"))`: the directory
entries whose name starts with the iteration's prefix, sorted by name.
(The pattern's fixed prefix is nonempty and does not start with a dot, so
glob's hidden-file rule never excludes a prefix match.) -/
def matchedFiles (src : List (String × List String)) (iteration : Nat) :
    List (String × List String) :=
  List.insertionSort nameLe
    (src.filter (fun f => startsWithL (base_name iteration).data f.1.data))

/-- Column names selected by the `shape_2D` flag. -/
def columnsFor (shape_2D : Bool) : List String :=
  if shape_2D then ["px", "py"] else ["px", "py", "pz"]

/-- Reads every matched file with `read_csv`, in order, propagating the
first error (the notebook's `for file in files: points.append(...)` loop). -/
def readAll (columns : List String) : List (String × List String) → Except Unit (List DF)
  | [] => .ok []
  | f :: fs =>
    match read_csv columns f.2 with
    | .error e => .error e
    | .ok d =>
      match readAll columns fs with
      | .error e => .error e
      | .ok ds => .ok (d :: ds)

/-- True when a row has no missing value (the rows `dropna` keeps). -/
def rowComplete (r : List (Option String)) : Bool :=
  r.all Option.isSome

/-- Errors `assemble_shape` can raise: a parse error from `pd.read_csv`
(`ValueError` on a bad numeric field, `EmptyDataError` on an empty file),
or the `ValueError` of `pd.concat([])` when no file matched. -/
inductive AsmError
  | parseError
  | noObjects
deriving Repr, DecidableEq

/-- Embedding of the notebook's `assemble_shape(path, iteration, shape_2D)`:
match and sort the shard files, read each, `pd.concat` (which raises on an
empty list of frames), `dropna`, `reset_index(drop=True)`.  All frames
share the same columns and dtype, so the concatenated frame has exactly
those; `dropna` keeps original (per-file) indices and `reset_index` then
reassigns `0..N-1`. -/
def assemble_shape (src : List (String × List String)) (iteration : Nat)
    (shape_2D : Bool) : Except AsmError DF :=
  match readAll (columnsFor shape_2D) (matchedFiles src iteration) with
  | .error _ => .error .parseError
  | .ok dfs =>
    match dfs with
    | [] => .error .noObjects
    | _ :: _ =>
      .ok ⟨columnsFor shape_2D, "float32",
        (((dfs.map DF.rows).flatten.filter (fun r => rowComplete r.2)).map Prod.snd).enum⟩

/-- Python `s.strip()` for the whitespace `int()` tolerates around a
number. -/
def pyStrip (l : List Char) : List Char :=
  ((l.dropWhile Char.isWhitespace).reverse.dropWhile Char.isWhitespace).reverse

/-- Splits an optional leading sign off a stripped numeral, as Python
`int()` does. -/
def pySign (l : List Char) : Int × List Char :=
  match l with
  | [] => (1, [])
  | c :: r => if c = '-' then (-1, r) else if c = '+' then (1, r) else (1, c :: r)

/-- Embedding of Python `int(s)`: optional surrounding whitespace, an
optional sign, then at least one decimal digit; anything else raises
`ValueError`.  (Python also accepts underscores between digits, but the
strings this notebook converts come from `split("_")` and so never
contain one.) -/
def pyInt (s : String) : Except Unit Int :=
  if allDigits (pySign (pyStrip s.data)).2 then
    .ok ((pySign (pyStrip s.data)).1 * decodeChars (pySign (pyStrip s.data)).2)
  else .error ()

/-- Embedding of `basename.split("_")[1]`: the second underscore-separated
field, or an `IndexError` (embedded as `Except.error`) when the name
contains no underscore.  Every glob match of `*_n000.txt` contains an
underscore, so the error branch is unreachable from `get_iterations`. -/
def secondField (n : String) : Except Unit String :=
  match pySplit '_' n.data with
  | _ :: p :: _ => .ok ⟨p⟩
  | _ => .error ()

/-- Converts each matched file name to its iteration number, propagating
the first `ValueError`/`IndexError` (the notebook's list comprehension). -/
def extractIterations : List String → Except Unit (List Int)
  | [] => .ok []
  | n :: ns =>
    match secondField n with
    | .error e => .error e
    | .ok f =>
      match pyInt f with
      | .error e => .error e
      | .ok i =>
        match extractIterations ns with
        | .error e => .error e
        | .ok is => .ok (i :: is)

/-- Embedding of the notebook's `get_iterations(path)`:
`glob(path + "/*_n000.txt")` (which skips names starting with a dot),
`int(basename.split("_")[1])` for each match, `sorted`. -/
def get_iterations (src : List (String × List String)) : Except Unit (List Int) :=
  match extractIterations ((src.map Prod.fst).filter
      (fun n => endsWithL "_n000.txt".data n.data && !startsWithL ".".data n.data)) with
  | .error e => .error e
  | .ok its => .ok (List.insertionSort (· ≤ ·) its)

/-- Overwriting write into a target directory, modelled as a map from file
name to content: `DataFrame.to_pickle` replaces any existing artifact of
the same name. -/
def storeWrite (store : String → Option DF) (name : String) (d : DF) :
    String → Option DF :=
  fun n => if n = name then some d else store n

/-- Embedding of the notebook's `process_shape(source, target, iteration,
shape_2D)`: assemble the iteration's table and pickle it to
`target/plic_(06d-format).pkl`; an assembly error propagates and nothing
is written. -/
def process_shape (src : List (String × List String))
    (store : String → Option DF) (iteration : Nat) (shape_2D : Bool) :
    Except AsmError (String → Option DF) :=
  match assemble_shape src iteration shape_2D with
  | .error e => .error e
  | .ok data => .ok (storeWrite store ("plic_" ++ pad6 iteration ++ ".pkl") data)

/-- Canonical shard-file name
`points_(06d-format iteration)_n(03d-format process).txt` from the fixed
naming convention. -/
def mkName (iteration proc : Nat) : String :=
  "points_" ++ pad6 iteration ++ "_n" ++ pad3 proc ++ ".txt"

/-! ### Facts about characters, decimal padding, and the scanning primitives -/

lemma isDigit_ne {c d : Char} (h : c.isDigit = true) (hd : d.isDigit = false) : c ≠ d := by
  intro he
  subst he
  rw [hd] at h
  exact Bool.noConfusion h

lemma isDigit_not_whitespace {c : Char} (h : c.isDigit = true) : c.isWhitespace = false := by
  rcases hw : c.isWhitespace with _ | _
  · rfl
  · exfalso
    simp only [Char.isWhitespace, Bool.or_eq_true, decide_eq_true_eq] at hw
    rcases hw with ((h1 | h1) | h1) | h1 <;> (subst h1; exact absurd h (by decide))

lemma digitChar_isDigit {d : Nat} (h : d < 10) : (digitChar d).isDigit = true := by
  interval_cases d <;> decide

lemma digitChar_toNat {d : Nat} (h : d < 10) : (digitChar d).toNat = 48 + d := by
  interval_cases d <;> decide

lemma decCharsAux_eq {fuel n : Nat} (h : n ≤ fuel) :
    decCharsAux fuel n = (Nat.digits 10 n).reverse.map digitChar := by
  induction fuel generalizing n with
  | zero =>
    have hn : n = 0 := Nat.le_zero.mp h
    subst hn
    simp [decCharsAux]
  | succ fuel ih =>
    by_cases hn : n = 0
    · subst hn
      simp [decCharsAux]
    · rw [decCharsAux, if_neg hn]
      rw [ih (by
        have := Nat.div_lt_self (Nat.pos_of_ne_zero hn) (by norm_num : (1:Nat) < 10)
        omega)]
      rw [Nat.digits_def' (by norm_num : (1:Nat) < 10) (Nat.pos_of_ne_zero hn)]
      simp

lemma decChars_eq (n : Nat) :
    decChars n = if n = 0 then ['0'] else ((Nat.digits 10 n).reverse.map digitChar) := by
  unfold decChars
  split
  · rfl
  · exact decCharsAux_eq (le_refl n)

lemma decChars_digits {n : Nat} : ∀ c ∈ decChars n, c.isDigit = true := by
  intro c hc
  rw [decChars_eq] at hc
  split at hc
  · simp only [List.mem_singleton] at hc
    subst hc
    decide
  · simp only [List.mem_map, List.mem_reverse] at hc
    obtain ⟨d, hd, rfl⟩ := hc
    exact digitChar_isDigit (Nat.digits_lt_base (by norm_num) hd)

lemma decChars_ne_nil {n : Nat} : decChars n ≠ [] := by
  rw [decChars_eq]
  split
  · simp
  · simp [Nat.digits_ne_nil_iff_ne_zero, *]

lemma padChars_digits {w n : Nat} : ∀ c ∈ padChars w n, c.isDigit = true := by
  intro c hc
  unfold padChars at hc
  rcases List.mem_append.mp hc with h | h
  · rw [List.eq_of_mem_replicate h]
    decide
  · exact decChars_digits c h

lemma padChars_ne_nil {w n : Nat} : padChars w n ≠ [] := by
  unfold padChars
  intro h
  rcases List.append_eq_nil.mp h with ⟨_, h2⟩
  exact decChars_ne_nil h2

lemma padChars_length {w n : Nat} : (padChars w n).length = max w (decChars n).length := by
  simp only [padChars, List.length_append, List.length_replicate]
  omega

lemma decChars_length_le {n k : Nat} (hk : 0 < k) (h : n < 10 ^ k) :
    (decChars n).length ≤ k := by
  rw [decChars_eq]
  split
  · simpa using hk
  · rw [List.length_map, List.length_reverse, Nat.digits_len 10 n (by norm_num) (by assumption)]
    have hlog := Nat.log_lt_of_lt_pow (by assumption) h
    omega

lemma decodeChars_replicate_zero (k : Nat) :
    List.foldl (fun a c => 10 * a + (c.toNat - 48)) 0 (List.replicate k '0') = 0 := by
  induction k with
  | zero => rfl
  | succ k ih =>
    rw [List.replicate_succ, List.foldl_cons]
    have h0 : (10 * 0 + ('0'.toNat - 48)) = 0 := by decide
    rw [h0]
    exact ih

lemma foldl_decode_digits (ds : List Nat) (hds : ∀ d ∈ ds, d < 10) (acc : Nat) :
    List.foldl (fun a c => 10 * a + (c.toNat - 48)) acc (ds.reverse.map digitChar) =
      acc * 10 ^ ds.length + Nat.ofDigits 10 ds := by
  induction ds generalizing acc with
  | nil => simp
  | cons d tl ih =>
    rw [List.reverse_cons, List.map_append, List.foldl_append]
    rw [ih (fun x hx => hds x (List.mem_cons_of_mem _ hx))]
    have hd : d < 10 := hds d (List.mem_cons_self _ _)
    simp only [List.map_cons, List.map_nil, List.foldl_cons, List.foldl_nil,
      digitChar_toNat hd, Nat.ofDigits_cons, List.length_cons, pow_succ]
    have hsub : 48 + d - 48 = d := by omega
    rw [hsub]
    ring

lemma decodeChars_decChars (n : Nat) : decodeChars (decChars n) = n := by
  rw [decChars_eq]
  unfold decodeChars
  split
  · subst ‹n = 0›
    decide
  · rw [foldl_decode_digits _ (fun d hd => Nat.digits_lt_base (by norm_num) hd) 0]
    simp [Nat.ofDigits_digits]

lemma decodeChars_padChars (w n : Nat) : decodeChars (padChars w n) = n := by
  unfold decodeChars padChars
  rw [List.foldl_append, decodeChars_replicate_zero]
  exact decodeChars_decChars n

lemma pad6_inj {a b : Nat} (h : pad6 a = pad6 b) : a = b := by
  have hd : padChars 6 a = padChars 6 b := congrArg String.data h
  have h2 := congrArg decodeChars hd
  rwa [decodeChars_padChars, decodeChars_padChars] at h2

lemma pySplit_ne_nil (sep : Char) (l : List Char) : pySplit sep l ≠ [] := by
  induction l with
  | nil => simp [pySplit]
  | cons c cs ih =>
    rcases h : pySplit sep cs with _ | ⟨g, gs⟩
    · exact absurd h ih
    · simp only [pySplit, h]
      split <;> simp

lemma pySplit_sepFree {sep : Char} {l : List Char} (h : ∀ c ∈ l, c ≠ sep) :
    pySplit sep l = [l] := by
  induction l with
  | nil => rfl
  | cons c cs ih =>
    have hc : c ≠ sep := h c (List.mem_cons_self _ _)
    have hcs := ih (fun x hx => h x (List.mem_cons_of_mem _ hx))
    simp only [pySplit, hcs]
    simp [hc]

lemma pySplit_append {sep : Char} {xs ys : List Char} (h : ∀ c ∈ xs, c ≠ sep) :
    pySplit sep (xs ++ sep :: ys) = xs :: pySplit sep ys := by
  induction xs with
  | nil =>
    rcases hy : pySplit sep ys with _ | ⟨g, gs⟩
    · exact absurd hy (pySplit_ne_nil sep ys)
    · simp only [List.nil_append, pySplit, hy]
      simp
  | cons c cs ih =>
    have hc : c ≠ sep := h c (List.mem_cons_self _ _)
    have hcs := ih (fun x hx => h x (List.mem_cons_of_mem _ hx))
    rw [List.cons_append]
    simp only [pySplit, hcs]
    simp [hc]

lemma startsWithL_append_of_length {p q : List Char} (r : List Char)
    (h : p.length = q.length) : (startsWithL p (q ++ r) = true) ↔ p = q := by
  induction p generalizing q with
  | nil =>
    cases q with
    | nil => simp [startsWithL]
    | cons b bs => simp at h
  | cons a as ih =>
    cases q with
    | nil => simp at h
    | cons b bs =>
      rw [List.cons_append]
      simp only [startsWithL, Bool.and_eq_true, decide_eq_true_eq]
      rw [ih (by simpa using h)]
      constructor
      · rintro ⟨rfl, rfl⟩; rfl
      · intro he
        injection he with h1 h2
        exact ⟨h1, h2⟩

lemma endsWithL_append_of_length {p q : List Char} (xs : List Char)
    (h : p.length = q.length) : (endsWithL p (xs ++ q) = true) ↔ p = q := by
  unfold endsWithL
  rw [List.reverse_append]
  rw [startsWithL_append_of_length _ (by simpa using h)]
  constructor
  · intro hrev; exact List.reverse_injective hrev
  · rintro rfl; rfl

lemma lexLe_refl (a : List Char) : lexLe a a = true := by
  induction a with
  | nil => rfl
  | cons x xs ih => simp [lexLe, ih]

lemma lexLe_total (a b : List Char) : lexLe a b = true ∨ lexLe b a = true := by
  induction a generalizing b with
  | nil => left; rfl
  | cons x xs ih =>
    cases b with
    | nil => right; rfl
    | cons y ys =>
      by_cases hxy : x = y
      · subst hxy
        simp only [lexLe, if_pos rfl]
        exact ih ys
      · rcases lt_trichotomy x y with hlt | heq | hgt
        · left; simp [lexLe, hxy, hlt]
        · exact absurd heq hxy
        · right
          simp [lexLe, Ne.symm hxy, hgt]

lemma lexLe_trans {a b c : List Char} (h1 : lexLe a b = true) (h2 : lexLe b c = true) :
    lexLe a c = true := by
  induction a generalizing b c with
  | nil => rfl
  | cons x xs ih =>
    cases b with
    | nil => exact absurd h1 (by simp [lexLe])
    | cons y ys =>
      cases c with
      | nil => exact absurd h2 (by simp [lexLe])
      | cons z zs =>
        by_cases hxy : x = y <;> by_cases hyz : y = z
        · subst hxy; subst hyz
          simp only [lexLe, if_pos rfl] at h1 h2 ⊢
          exact ih h1 h2
        · subst hxy
          simpa [lexLe, hyz] using h2
        · subst hyz
          simpa [lexLe, hxy] using h1
        · simp only [lexLe, if_neg hxy, decide_eq_true_eq] at h1
          simp only [lexLe, if_neg hyz, decide_eq_true_eq] at h2
          have hxz : x < z := lt_trans h1 h2
          simp [lexLe, ne_of_lt hxz, hxz]

lemma lexLt_irrefl (a : List Char) : lexLt a a = false := by
  induction a with
  | nil => rfl
  | cons x xs ih => simp [lexLt, ih]

lemma lexLt_asymm {a b : List Char} (h : lexLt a b = true) : lexLt b a = false := by
  induction a generalizing b with
  | nil =>
    cases b with
    | nil => exact absurd h (by simp [lexLt])
    | cons y ys => rfl
  | cons x xs ih =>
    cases b with
    | nil => exact absurd h (by simp [lexLt])
    | cons y ys =>
      by_cases hxy : x = y
      · subst hxy
        simp only [lexLt, if_pos rfl] at h ⊢
        exact ih h
      · simp only [lexLt, if_neg hxy, decide_eq_true_eq] at h
        simp [lexLt, Ne.symm hxy, not_lt_of_gt h]

lemma lexLt_ne {a b : List Char} (h : lexLt a b = true) : a ≠ b := by
  intro he
  subst he
  rw [lexLt_irrefl a] at h
  exact Bool.noConfusion h

lemma lexLe_ne_imp_lt {a b : List Char} (h : lexLe a b = true) (hne : a ≠ b) :
    lexLt a b = true := by
  induction a generalizing b with
  | nil =>
    cases b with
    | nil => exact absurd rfl hne
    | cons y ys => rfl
  | cons x xs ih =>
    cases b with
    | nil => exact absurd h (by simp [lexLe])
    | cons y ys =>
      by_cases hxy : x = y
      · subst hxy
        simp only [lexLe, if_pos rfl] at h
        simp only [lexLt, if_pos rfl]
        exact ih h (by intro he; exact hne (by rw [he]))
      · simp only [lexLe, if_neg hxy, decide_eq_true_eq] at h
        simp [lexLt, hxy, h]

/-- Strict name order on directory entries, used to state that a file list
is strictly ascending by name. -/
def nameLt (f g : String × List String) : Prop :=
  lexLt f.1.data g.1.data = true

instance : DecidableRel nameLt :=
  fun f g => inferInstanceAs (Decidable (lexLt f.1.data g.1.data = true))

instance : IsTotal (String × List String) nameLe :=
  ⟨fun f g => lexLe_total f.1.data g.1.data⟩

instance : IsTrans (String × List String) nameLe :=
  ⟨fun _ _ _ h1 h2 => lexLe_trans h1 h2⟩

instance : IsAntisymm (String × List String) nameLt :=
  ⟨fun a b h1 h2 => by
    have h2' : lexLt b.1.data a.1.data = true := h2
    rw [lexLt_asymm h1] at h2'
    exact Bool.noConfusion h2'⟩

lemma sorted_nameLt_of_sorted_nameLe {l : List (String × List String)}
    (hs : List.Sorted nameLe l)
    (hn : List.Pairwise (fun f g => f.1 ≠ g.1) l) :
    List.Sorted nameLt l := by
  refine (hs.and hn).imp ?_
  rintro a b ⟨hle, hne⟩
  exact lexLe_ne_imp_lt hle (fun he => hne (String.ext he))

lemma pairwise_ne_of_sorted_nameLt {l : List (String × List String)}
    (hs : List.Sorted nameLt l) :
    List.Pairwise (fun f g => f.1 ≠ g.1) l := by
  refine hs.imp ?_
  intro a b hlt he
  exact lexLt_ne hlt (congrArg String.data he)

/-- The sorted glob result is determined by which files match: any strictly
ascending enumeration of the matching files is THE value of `matchedFiles`. -/
lemma matchedFiles_eq {src fl : List (String × List String)} {it : Nat}
    (hperm : fl.Perm (src.filter (fun f => startsWithL (base_name it).data f.1.data)))
    (hsort : List.Sorted nameLt fl) :
    matchedFiles src it = fl := by
  have hperm2 : (matchedFiles src it).Perm fl :=
    (List.perm_insertionSort nameLe _).trans hperm.symm
  have hne : List.Pairwise (fun f g : String × List String => f.1 ≠ g.1) fl :=
    pairwise_ne_of_sorted_nameLt hsort
  have hne2 : List.Pairwise (fun f g : String × List String => f.1 ≠ g.1) (matchedFiles src it) :=
    (List.Perm.pairwise_iff (fun h => Ne.symm h) hperm2).mpr hne
  have hs1 : List.Sorted nameLe (matchedFiles src it) :=
    List.sorted_insertionSort nameLe _
  exact List.eq_of_perm_of_sorted hperm2 (sorted_nameLt_of_sorted_nameLe hs1 hne2) hsort

/-! ### Facts about line and file parsing -/

/-- A well-formed point line for an `ncols`-column schema: exactly `ncols`
space-separated fields, each a numeric token. -/
def lineWF (ncols : Nat) (l : String) : Prop :=
  (pySplit ' ' l.data).length = ncols ∧ ∀ t ∈ pySplit ' ' l.data, isFloatTok t = true

/-- A line that is blank or a well-formed point line. -/
def lineOk (ncols : Nat) (l : String) : Prop :=
  l.data = [] ∨ lineWF ncols l

instance (ncols : Nat) (l : String) : Decidable (lineWF ncols l) :=
  inferInstanceAs (Decidable ((pySplit ' ' l.data).length = ncols ∧
    ∀ t ∈ pySplit ' ' l.data, isFloatTok t = true))

instance (ncols : Nat) (l : String) : Decidable (lineOk ncols l) :=
  inferInstanceAs (Decidable (l.data = [] ∨ lineWF ncols l))

/-- The row a well-formed point line parses to. -/
def rowOf (l : String) : List (Option String) :=
  (pySplit ' ' l.data).map (fun t => some (⟨t⟩ : String))

/-- The rows contributed by the well-formed lines of a file: one row per
non-blank line, in file order. -/
def goodRows (lines : List String) : List (List (Option String)) :=
  (lines.filter (fun l => !l.data.isEmpty)).map rowOf

lemma float_not_na {t : List Char} (h : isFloatTok t = true) : isNAToken t = false := by
  rcases hna : isNAToken t with _ | _
  · rfl
  · exfalso
    have hmem : t ∈ naStrings := by
      simpa [isNAToken] using hna
    simp only [naStrings, List.mem_cons, List.not_mem_nil, or_false] at hmem
    rcases hmem with h1 | h1 | h1 | h1 | h1 | h1 | h1 | h1 | h1 | h1 <;>
      (subst h1; exact absurd h (by decide))

lemma parseCell_float {t : List Char} (h : isFloatTok t = true) :
    parseCell t = .ok (some (⟨t⟩ : String)) := by
  unfold parseCell
  rw [float_not_na h]
  simp [h]

lemma parseCells_float {ts : List (List Char)} (h : ∀ t ∈ ts, isFloatTok t = true) :
    parseCells ts = .ok (ts.map (fun t => some (⟨t⟩ : String))) := by
  induction ts with
  | nil => rfl
  | cons t ts ih =>
    simp only [parseCells, parseCell_float (h t (List.mem_cons_self _ _)),
      ih (fun x hx => h x (List.mem_cons_of_mem _ hx)), List.map_cons]

lemma nonblank_of_all_float {l : String}
    (h : ∀ t ∈ pySplit ' ' l.data, isFloatTok t = true) : l.data ≠ [] := by
  intro he
  rw [he] at h
  exact absurd (h [] (by simp [pySplit])) (by decide)

lemma parseLine_wf {ncols : Nat} {l : String} (h : lineWF ncols l) :
    parseLine ncols l = .ok (some (rowOf l)) := by
  obtain ⟨hlen, hflt⟩ := h
  unfold parseLine
  rw [if_neg (nonblank_of_all_float hflt)]
  have hdrop : (pySplit ' ' l.data).length - ncols = 0 := by omega
  rw [hdrop, List.drop_zero, parseCells_float hflt]
  have hlen2 : ((pySplit ' ' l.data).map (fun t => some (⟨t⟩ : String))).length = ncols := by
    simpa using hlen
  simp [rowOf, hlen2]

lemma parseLine_short {ncols : Nat} {l : String}
    (hflt : ∀ t ∈ pySplit ' ' l.data, isFloatTok t = true)
    (hlen : (pySplit ' ' l.data).length < ncols) :
    parseLine ncols l =
      .ok (some (rowOf l ++ List.replicate (ncols - (pySplit ' ' l.data).length) none)) := by
  unfold parseLine
  rw [if_neg (nonblank_of_all_float hflt)]
  have hdrop : (pySplit ' ' l.data).length - ncols = 0 := by omega
  rw [hdrop, List.drop_zero, parseCells_float hflt]
  simp [rowOf]

lemma rowComplete_rowOf (l : String) : rowComplete (rowOf l) = true := by
  simp [rowComplete, rowOf, List.all_eq_true]

lemma rowComplete_short {r : List (Option String)} {k : Nat} (h : 0 < k) :
    rowComplete (r ++ List.replicate k none) = false := by
  rcases k with _ | k
  · omega
  · simp [rowComplete, List.all_eq_true]

lemma parseRows_append {ncols : Nat} {xs ys : List String}
    {rx ry : List (List (Option String))}
    (hx : parseRows ncols xs = .ok rx) (hy : parseRows ncols ys = .ok ry) :
    parseRows ncols (xs ++ ys) = .ok (rx ++ ry) := by
  induction xs generalizing rx with
  | nil =>
    simp only [parseRows] at hx
    injection hx with hx
    subst hx
    simpa using hy
  | cons l ls ih =>
    rcases hpl : parseLine ncols l with e | o
    · simp only [parseRows, hpl] at hx
      exact Except.noConfusion hx
    · rcases o with _ | r
      · simp only [parseRows, hpl] at hx
        rw [List.cons_append]
        simp only [parseRows, hpl]
        exact ih hx
      · simp only [parseRows, hpl] at hx
        rcases hls : parseRows ncols ls with e | rs
        · rw [hls] at hx
          exact absurd hx (by simp)
        · rw [hls] at hx
          injection hx with hx
          subst hx
          rw [List.cons_append]
          simp only [parseRows, hpl, ih hls]
          simp

lemma parseRows_ok {ncols : Nat} {lines : List String}
    (h : ∀ l ∈ lines, lineOk ncols l) :
    parseRows ncols lines = .ok (goodRows lines) := by
  induction lines with
  | nil => rfl
  | cons l ls ih =>
    have hls := ih (fun x hx => h x (List.mem_cons_of_mem _ hx))
    rcases h l (List.mem_cons_self _ _) with hb | hw
    · have hpl : parseLine ncols l = .ok none := by
        unfold parseLine
        rw [if_pos hb]
      simp only [parseRows, hpl, hls]
      simp [goodRows, List.filter_cons, hb]
    · simp only [parseRows, parseLine_wf hw, hls]
      have hnb : l.data ≠ [] := nonblank_of_all_float hw.2
      simp [goodRows, List.filter_cons, List.isEmpty_iff, hnb]

lemma enumFrom_filter_map_snd {α : Type} (q : α → Bool) (l : List α) (k : Nat) :
    ((List.enumFrom k l).filter (fun r => q r.2)).map Prod.snd = l.filter q := by
  induction l generalizing k with
  | nil => rfl
  | cons a as ih =>
    by_cases h : q a = true
    · simp only [List.enumFrom_cons, List.filter_cons, h, if_true, List.map_cons, ih]
    · simp only [List.enumFrom_cons, List.filter_cons, h]
      simp only [Bool.false_eq_true, if_false, ih]

lemma read_csv_ok {columns : List String} {lines : List String}
    (hok : ∀ l ∈ lines, lineOk columns.length l)
    (hnb : ∃ l ∈ lines, l.data ≠ []) :
    read_csv columns lines = .ok ⟨columns, "float32", (goodRows lines).enum⟩ := by
  unfold read_csv
  obtain ⟨l, hl, hlne⟩ := hnb
  rw [if_neg (by simp only [List.all_eq_true, decide_eq_true_eq]; intro hall; exact hlne (hall l hl))]
  rw [parseRows_ok hok]

lemma readAll_ok {columns : List String} {fs : List (String × List String)}
    (dfF : String × List String → DF)
    (h : ∀ f ∈ fs, read_csv columns f.2 = .ok (dfF f)) :
    readAll columns fs = .ok (fs.map dfF) := by
  induction fs with
  | nil => rfl
  | cons f fs ih =>
    simp only [readAll, h f (List.mem_cons_self _ _),
      ih (fun x hx => h x (List.mem_cons_of_mem _ hx)), List.map_cons]

lemma flatten_enum_filter (L : List (List (List (Option String)))) :
    ((L.map List.enum).flatten.filter (fun r => rowComplete r.2)).map Prod.snd =
      (L.map (fun rs => rs.filter rowComplete)).flatten := by
  induction L with
  | nil => rfl
  | cons rs L ih =>
    simp only [List.map_cons, List.flatten_cons, List.filter_append, List.map_append, ih]
    congr 1
    exact enumFrom_filter_map_snd rowComplete rs 0

/-- Computes `assemble_shape` when the matched files are known and each
parses successfully: the result concatenates the per-file cleaned rows in
matched (sorted) order and re-indexes them from `0`. -/
lemma assemble_shape_eq {src fl : List (String × List String)} {it : Nat} {flag : Bool}
    (R : String × List String → List (List (Option String)))
    (hfl : matchedFiles src it = fl)
    (hne : fl ≠ [])
    (h : ∀ f ∈ fl, read_csv (columnsFor flag) f.2 =
      .ok ⟨columnsFor flag, "float32", (R f).enum⟩) :
    assemble_shape src it flag =
      .ok ⟨columnsFor flag, "float32",
        ((fl.map (fun f => (R f).filter rowComplete)).flatten).enum⟩ := by
  unfold assemble_shape
  rw [hfl]
  rw [readAll_ok (fun f => ⟨columnsFor flag, "float32", (R f).enum⟩) h]
  cases fl with
  | nil => exact absurd rfl hne
  | cons f fs =>
    simp only [List.map_cons]
    have hrows : ((((f :: fs).map fun f => (⟨columnsFor flag, "float32", (R f).enum⟩ : DF)).map
        DF.rows).flatten.filter fun r => rowComplete r.2).map Prod.snd =
        ((f :: fs).map (fun f => (R f).filter rowComplete)).flatten := by
      rw [List.map_map]
      have h1 : (DF.rows ∘ fun f => (⟨columnsFor flag, "float32", (R f).enum⟩ : DF)) =
          (fun f => (R f).enum) := rfl
      rw [h1]
      have h2 : ((f :: fs).map fun f => (R f).enum) = ((f :: fs).map R).map List.enum := by
        rw [List.map_map]; rfl
      have h3 : ((f :: fs).map fun f => (R f).filter rowComplete) =
          ((f :: fs).map R).map (fun rs => rs.filter rowComplete) := by
        rw [List.map_map]; rfl
      rw [h2, h3]
      exact flatten_enum_filter ((f :: fs).map R)
    simp only [List.map_cons] at hrows
    rw [← hrows]

lemma assemble_shape_ok_shape {src : List (String × List String)} {it : Nat}
    {flag : Bool} {df : DF} (h : assemble_shape src it flag = .ok df) :
    df.cols = columnsFor flag ∧ df.dtype = "float32" := by
  unfold assemble_shape at h
  rcases hra : readAll (columnsFor flag) (matchedFiles src it) with e | dfs
  · rw [hra] at h
    exact Except.noConfusion h
  · rw [hra] at h
    cases dfs with
    | nil => exact Except.noConfusion h
    | cons d ds =>
      injection h with h
      subst h
      exact ⟨rfl, rfl⟩

lemma matchedFiles_singleton {name : String} {lines : List String} {it : Nat}
    (h : startsWithL (base_name it).data name.data = true) :
    matchedFiles [(name, lines)] it = [(name, lines)] := by
  unfold matchedFiles
  simp [List.filter_cons, h, List.insertionSort]

/-! ### Facts about `get_iterations` on canonically named shard files -/

lemma padChars_ne_underscore {w n : Nat} : ∀ c ∈ padChars w n, c ≠ '_' :=
  fun c hc => isDigit_ne (padChars_digits c hc) (by decide)

lemma points_ne_underscore : ∀ c ∈ "points".data, c ≠ '_' := by decide

lemma mkName_data (it proc : Nat) :
    (mkName it proc).data =
      "points".data ++ '_' :: (padChars 6 it ++ '_' :: ('n' :: (padChars 3 proc ++ ".txt".data))) := by
  unfold mkName pad6 pad3
  simp only [String.data_append]
  simp [List.append_assoc, List.cons_append]

lemma secondField_mkName (it proc : Nat) :
    secondField (mkName it proc) = .ok (pad6 it) := by
  unfold secondField
  rw [mkName_data, pySplit_append points_ne_underscore,
    pySplit_append padChars_ne_underscore]
  rfl

lemma dropWhile_eq_self_of_not {α : Type} (p : α → Bool) (l : List α)
    (h : ∀ x ∈ l, p x = false) : l.dropWhile p = l := by
  cases l with
  | nil => rfl
  | cons a as => simp [List.dropWhile_cons, h a (List.mem_cons_self _ _)]

lemma pyStrip_of_digits {l : List Char} (h : ∀ c ∈ l, c.isDigit = true) :
    pyStrip l = l := by
  unfold pyStrip
  rw [dropWhile_eq_self_of_not _ _ (fun c hc => isDigit_not_whitespace (h c hc))]
  rw [dropWhile_eq_self_of_not _ _
    (fun c hc => isDigit_not_whitespace (h c (List.mem_reverse.mp hc)))]
  exact List.reverse_reverse l

lemma pySign_digit {c : Char} {r : List Char} (h : c.isDigit = true) :
    pySign (c :: r) = (1, c :: r) := by
  simp only [pySign]
  rw [if_neg (isDigit_ne h (by decide)), if_neg (isDigit_ne h (by decide))]

lemma pyInt_digits {l : List Char} (hne : l ≠ []) (h : ∀ c ∈ l, c.isDigit = true) :
    pyInt ⟨l⟩ = .ok ((decodeChars l : Nat) : Int) := by
  have hstrip : pyStrip (⟨l⟩ : String).data = l := pyStrip_of_digits h
  have hsign : pySign l = (1, l) := by
    obtain ⟨c, r, rfl⟩ := List.exists_cons_of_ne_nil hne
    exact pySign_digit (h c (List.mem_cons_self _ _))
  have hall : allDigits l = true := by
    unfold allDigits
    have h1 : l.isEmpty = false := by
      cases l
      · exact absurd rfl hne
      · rfl
    rw [h1]
    simp only [Bool.not_false, Bool.true_and, List.all_eq_true]
    exact h
  unfold pyInt
  rw [hstrip, hsign]
  simp only [hall, if_true]
  simp

lemma pyInt_pad6 (it : Nat) : pyInt (pad6 it) = .ok ((it : Nat) : Int) := by
  have h := pyInt_digits (l := padChars 6 it) padChars_ne_nil padChars_digits
  rw [decodeChars_padChars] at h
  exact h

lemma padChars3_length {proc : Nat} (h : proc < 1000) : (padChars 3 proc).length = 3 := by
  rw [padChars_length]
  have hle := decChars_length_le (n := proc) (k := 3) (by norm_num) (by norm_num; omega)
  omega

lemma mkName_data_suffix (it proc : Nat) :
    (mkName it proc).data =
      ("points".data ++ '_' :: padChars 6 it) ++
        ('_' :: 'n' :: (padChars 3 proc ++ ".txt".data)) := by
  rw [mkName_data]
  simp [List.append_assoc]

lemma mkName_endsWith_iff {it proc : Nat} (h : proc < 1000) :
    (endsWithL "_n000.txt".data (mkName it proc).data = true) ↔ proc = 0 := by
  rw [mkName_data_suffix]
  rw [endsWithL_append_of_length _ (by simp [padChars3_length h])]
  constructor
  · intro he
    have he2 : (['0', '0', '0'] : List Char) ++ ".txt".data =
        padChars 3 proc ++ ".txt".data := by
      have h9 := congrArg (List.drop 2) he
      simpa using h9
    have he3 : (['0', '0', '0'] : List Char) = padChars 3 proc :=
      List.append_inj_left he2 (by simp [padChars3_length h])
    have he4 := congrArg decodeChars he3
    rw [decodeChars_padChars] at he4
    rw [← he4]
    decide
  · rintro rfl
    have h30 : padChars 3 0 = ['0', '0', '0'] := by decide
    rw [h30]
    decide

lemma mkName_not_hidden (it proc : Nat) :
    startsWithL ".".data (mkName it proc).data = false := by
  rw [mkName_data]
  have hp : "points".data = 'p' :: "oints".data := by decide
  rw [hp, List.cons_append]
  rfl

lemma cond_mkName {it proc : Nat} (h : proc < 1000) :
    ((endsWithL "_n000.txt".data (mkName it proc).data &&
      !startsWithL ".".data (mkName it proc).data) = true) ↔ proc = 0 := by
  rw [mkName_not_hidden]
  simp only [Bool.not_false, Bool.and_true]
  exact mkName_endsWith_iff h

/-- Total function computing the iteration number a matched file name
parses to (used only to state lemmas; arbitrary where parsing would
raise). -/
def iterOf (n : String) : Int :=
  match secondField n with
  | .error _ => 0
  | .ok f =>
    match pyInt f with
    | .error _ => 0
    | .ok i => i

lemma iterOf_mkName (it proc : Nat) : iterOf (mkName it proc) = (it : Int) := by
  simp only [iterOf, secondField_mkName, pyInt_pad6]

lemma extractIterations_ok {ns : List String}
    (h : ∀ n ∈ ns, ∃ it proc, n = mkName it proc) :
    extractIterations ns = .ok (ns.map iterOf) := by
  induction ns with
  | nil => rfl
  | cons n ns ih =>
    obtain ⟨it, proc, rfl⟩ := h n (List.mem_cons_self _ _)
    simp only [extractIterations, secondField_mkName, pyInt_pad6,
      ih (fun x hx => h x (List.mem_cons_of_mem _ hx)), List.map_cons, iterOf_mkName]

/-- Rows coming from well-formed lines are all complete, so `dropna`
keeps every one of them. -/
lemma filter_goodRows (lines : List String) :
    (goodRows lines).filter rowComplete = goodRows lines := by
  refine List.filter_eq_self.mpr ?_
  intro r hr
  obtain ⟨l, _, rfl⟩ := List.mem_map.mp hr
  exact rowComplete_rowOf l

/-! ### Claim theorems -/

/-- C1 (counterexample): with no shard file matching the iteration (the
empty listing also models a missing source directory, since `glob`
returns nothing either way), `assemble_shape` does NOT return an empty
table: `pd.concat` is called on an empty list of frames and raises
`ValueError`. -/
theorem C1_counterexample :
    assemble_shape [] 5 true = Except.error AsmError.noObjects := rfl

/-- C1 (amended): for every source listing and iteration number, if no
file name starts with the iteration's shard prefix (in particular when
the source directory is missing or empty), `assemble_shape` raises the
`ValueError` of `pd.concat([])` instead of returning an empty table. -/
theorem C1_no_match_raises (src : List (String × List String)) (it : Nat)
    (flag : Bool)
    (h : ∀ f ∈ src, startsWithL (base_name it).data f.1.data = false) :
    assemble_shape src it flag = .error .noObjects := by
  have hm : matchedFiles src it = [] := by
    unfold matchedFiles
    rw [List.filter_eq_nil_iff.mpr (fun f hf => by simp [h f hf])]
    rfl
  unfold assemble_shape
  rw [hm]
  rfl

theorem C1_no_match_raises_witness :
    assemble_shape [("other.txt", ["1.0 2.0"])] 7 true = .error .noObjects :=
  C1_no_match_raises [("other.txt", ["1.0 2.0"])] 7 true (by decide)

/-- C4 (counterexample): a file name that violates the fixed naming
pattern but still matches the glob `*_n000.txt` is not silently ignored:
`int("b")` raises `ValueError`, which `get_iterations` propagates. -/
theorem C4_counterexample :
    get_iterations [("a_b_n000.txt", [])] = Except.error () := rfl

/-- C4 (amended): a file whose name does not match the glob `*_n000.txt`
(or that glob skips as hidden) is silently ignored — deleting it from the
listing leaves `get_iterations` unchanged; only for such non-matching
names is the claim's silent-ignore behavior true, since a matching name
with a non-numeric second underscore-field raises. -/
theorem C4_nonmatching_ignored (pre post : List (String × List String))
    (f : String × List String)
    (h : (endsWithL "_n000.txt".data f.1.data &&
      !startsWithL ".".data f.1.data) = false) :
    get_iterations (pre ++ f :: post) = get_iterations (pre ++ post) := by
  unfold get_iterations
  have he : ((pre ++ f :: post).map Prod.fst).filter
        (fun n => endsWithL "_n000.txt".data n.data && !startsWithL ".".data n.data) =
      ((pre ++ post).map Prod.fst).filter
        (fun n => endsWithL "_n000.txt".data n.data && !startsWithL ".".data n.data) := by
    simp only [List.map_append, List.map_cons, List.filter_append, List.filter_cons, h]
    simp
  rw [he]

theorem C4_nonmatching_ignored_witness :
    get_iterations [("points_000010_n000.txt", []), ("readme.md", [])] =
      get_iterations [("points_000010_n000.txt", [])] :=
  C4_nonmatching_ignored [("points_000010_n000.txt", [])] [] ("readme.md", [])
    (by decide)

/-- C5 (counterexample): a shard file all of whose lines are blank (here:
an empty file) does not contribute zero rows; `pd.read_csv` raises
`EmptyDataError` on a file with no data and the whole assembly call
fails. -/
theorem C5_counterexample :
    assemble_shape [("points_000005_n000.txt", [])] 5 true =
      Except.error AsmError.parseError := rfl

/-- C5 (amended): for a shard file with at least one non-blank line whose
lines are each blank or well-formed, the file's contribution to the
assembled table is exactly one row per non-blank line, wherever the blank
lines are placed; a file with no non-blank line at all instead makes
`pd.read_csv` raise `EmptyDataError`. -/
theorem C5_blank_line_neutrality (it : Nat) (flag : Bool) (name : String)
    (lines : List String)
    (hmatch : startsWithL (base_name it).data name.data = true)
    (hok : ∀ l ∈ lines, lineOk (columnsFor flag).length l)
    (hnb : ∃ l ∈ lines, l.data ≠ []) :
    ∃ df : DF, assemble_shape [(name, lines)] it flag = .ok df ∧
      df.rows.length = (lines.filter (fun l => !l.data.isEmpty)).length := by
  have hasm := assemble_shape_eq (fun _ => goodRows lines)
    (matchedFiles_singleton hmatch) (List.cons_ne_nil _ _)
    (fun f hf => by
      rcases List.mem_singleton.mp hf with rfl
      exact read_csv_ok hok hnb)
  refine ⟨_, hasm, ?_⟩
  simp only [List.map_cons, List.map_nil, List.flatten_cons, List.flatten_nil,
    List.append_nil, List.enum_length, filter_goodRows]
  simp [goodRows]

theorem C5_blank_line_neutrality_witness :
    ∃ df : DF,
      assemble_shape [("points_000005_n000.txt", ["0.1 0.2", "", "0.3 0.4"])] 5 true =
        .ok df ∧
      df.rows.length =
        ((["0.1 0.2", "", "0.3 0.4"] : List String).filter
          (fun l => !l.data.isEmpty)).length :=
  C5_blank_line_neutrality 5 true "points_000005_n000.txt"
    ["0.1 0.2", "", "0.3 0.4"] (by decide) (by decide) (by decide)

/-- C2 (counterexample): a shard file whose only defect is one non-numeric
coordinate field does not yield a missing-value row that is dropped: the
`float32` conversion of `pd.read_csv` raises `ValueError` and the whole
call fails, so the other rows of the file are lost too. -/
theorem C2_counterexample :
    assemble_shape [("points_000005_n000.txt", ["abc 1.0", "0.3 0.4"])] 5 true =
      Except.error AsmError.parseError := rfl

/-- C2 (amended): the one malformation that yields a missing-value row
instead of an exception is a missing field: a line with fewer fields than
the schema (each present field numeric) parses to a row with `NaN` in the
missing trailing columns, that row is dropped by `dropna`, and every
other blank-or-well-formed line of the file is processed normally. -/
theorem C2_short_line_dropped (it : Nat) (flag : Bool) (name : String)
    (pre post : List String) (bad : String)
    (hmatch : startsWithL (base_name it).data name.data = true)
    (hpre : ∀ l ∈ pre, lineOk (columnsFor flag).length l)
    (hpost : ∀ l ∈ post, lineOk (columnsFor flag).length l)
    (hflt : ∀ t ∈ pySplit ' ' bad.data, isFloatTok t = true)
    (hshort : (pySplit ' ' bad.data).length < (columnsFor flag).length) :
    assemble_shape [(name, pre ++ bad :: post)] it flag =
      .ok ⟨columnsFor flag, "float32", (goodRows pre ++ goodRows post).enum⟩ := by
  have hbadrow := parseLine_short hflt hshort
  have hrows : parseRows (columnsFor flag).length (pre ++ bad :: post) =
      .ok (goodRows pre ++
        (rowOf bad ++ List.replicate
          ((columnsFor flag).length - (pySplit ' ' bad.data).length) none) ::
        goodRows post) := by
    refine parseRows_append (parseRows_ok hpre) ?_
    simp only [parseRows, hbadrow, parseRows_ok hpost]
  have hread : read_csv (columnsFor flag) (pre ++ bad :: post) =
      .ok ⟨columnsFor flag, "float32",
        (goodRows pre ++
          (rowOf bad ++ List.replicate
            ((columnsFor flag).length - (pySplit ' ' bad.data).length) none) ::
          goodRows post).enum⟩ := by
    unfold read_csv
    rw [if_neg (by
      simp only [List.all_eq_true, decide_eq_true_eq]
      intro hall
      exact nonblank_of_all_float hflt
        (hall bad (by simp)))]
    rw [hrows]
  have hasm := assemble_shape_eq
    (fun _ => goodRows pre ++
      (rowOf bad ++ List.replicate
        ((columnsFor flag).length - (pySplit ' ' bad.data).length) none) ::
      goodRows post)
    (matchedFiles_singleton hmatch) (List.cons_ne_nil _ _)
    (fun f hf => by
      rcases List.mem_singleton.mp hf with rfl
      exact hread)
  rw [hasm]
  simp only [List.map_cons, List.map_nil, List.flatten_cons, List.flatten_nil,
    List.append_nil]
  rw [List.filter_append, List.filter_cons]
  rw [if_neg (by
    rw [rowComplete_short (by omega)]
    simp)]
  rw [filter_goodRows, filter_goodRows]

theorem C2_short_line_dropped_witness :
    assemble_shape [("points_000005_n000.txt", ["0.1 0.2", "0.3", "0.5 0.6"])] 5 true =
      .ok ⟨columnsFor true, "float32",
        (goodRows ["0.1 0.2"] ++ goodRows ["0.5 0.6"]).enum⟩ :=
  C2_short_line_dropped 5 true "points_000005_n000.txt" ["0.1 0.2"] ["0.5 0.6"]
    "0.3" (by decide) (by decide) (by decide) (by decide) (by decide)

/-- C10: file selection in `assemble_shape` is pure name-prefix matching:
a directory entry is globbed — and hence its rows are parsed into the
Iteration Table — iff its name starts with
`points_` ++ (6-digit iteration) ++ `_n`, with no constraint at all on
what follows (no 3-digit process number or `.txt` suffix is required). -/
theorem C10_prefix_only_matching (src : List (String × List String)) (it : Nat)
    (f : String × List String) :
    f ∈ matchedFiles src it ↔
      (f ∈ src ∧ startsWithL ("points_" ++ pad6 it ++ "_n").data f.1.data = true) := by
  unfold matchedFiles
  rw [(List.perm_insertionSort nameLe _).mem_iff]
  rw [List.mem_filter]
  exact Iff.rfl

theorem C10_prefix_only_matching_witness :
    ("points_000005_nBACKUP.csv", ([] : List String)) ∈
      matchedFiles [("points_000005_nBACKUP.csv", ([] : List String))] 5 :=
  (C10_prefix_only_matching [("points_000005_nBACKUP.csv", [])] 5
    ("points_000005_nBACKUP.csv", [])).mpr ⟨by simp, by decide⟩

/-- C9: when assembly succeeds, `process_shape` writes exactly one
artifact, under the deterministic name `plic_` ++ (6-digit iteration) ++
`.pkl`, whose content is the assembled table itself — so column names and
the single-precision dtype round-trip unchanged; the write overwrites
whatever the target held under that name (the previous value does not
appear in the result), leaves every other name untouched, and is the
call's only effect (the function returns nothing else). -/
theorem C9_serialization (src : List (String × List String))
    (store : String → Option DF) (it : Nat) (flag : Bool) (data : DF)
    (h : assemble_shape src it flag = .ok data) :
    ∃ st2 : String → Option DF,
      process_shape src store it flag = .ok st2 ∧
      st2 ("plic_" ++ pad6 it ++ ".pkl") = some data ∧
      data.dtype = "float32" ∧ data.cols = columnsFor flag ∧
      (∀ n, n ≠ "plic_" ++ pad6 it ++ ".pkl" → st2 n = store n) := by
  refine ⟨storeWrite store ("plic_" ++ pad6 it ++ ".pkl") data, ?_, ?_, ?_, ?_, ?_⟩
  · unfold process_shape
    rw [h]
  · unfold storeWrite
    rw [if_pos rfl]
  · exact (assemble_shape_ok_shape h).2
  · exact (assemble_shape_ok_shape h).1
  · intro n hn
    unfold storeWrite
    rw [if_neg hn]

theorem C9_serialization_witness :
    ∃ st2 : String → Option DF,
      process_shape [("points_000005_n000.txt", ["0.1 0.2"])]
          (fun _ => none) 5 true = .ok st2 ∧
      st2 ("plic_" ++ pad6 5 ++ ".pkl") =
        some ⟨["px", "py"], "float32", [(0, [some "0.1", some "0.2"])]⟩ ∧
      (⟨["px", "py"], "float32", [(0, [some "0.1", some "0.2"])]⟩ : DF).dtype =
        "float32" ∧
      (⟨["px", "py"], "float32", [(0, [some "0.1", some "0.2"])]⟩ : DF).cols =
        columnsFor true ∧
      (∀ n, n ≠ "plic_" ++ pad6 5 ++ ".pkl" →
        st2 n = (fun _ => none : String → Option DF) n) :=
  C9_serialization [("points_000005_n000.txt", ["0.1 0.2"])] (fun _ => none) 5 true
    ⟨["px", "py"], "float32", [(0, [some "0.1", some "0.2"])]⟩ rfl

/-- C7: the dimensionality flag fixes the output column set exactly
(`px, py` with the 2D flag set, `px, py, pz` with it unset); and a line
carrying only two fields under the 3-column schema parses with the two
values in `px` and `py` and `pz` missing — a row `dropna` then removes —
rather than shifting values into the wrong columns. -/
theorem C7_dimensionality :
    (∀ src it (df : DF),
        (assemble_shape src it true = .ok df → df.cols = ["px", "py"]) ∧
        (assemble_shape src it false = .ok df → df.cols = ["px", "py", "pz"])) ∧
      (∀ a b : String, isFloatTok a.data = true → isFloatTok b.data = true →
        (' ' ∉ a.data) → (' ' ∉ b.data) →
        parseLine 3 (a ++ " " ++ b) = .ok (some [some a, some b, none]) ∧
          rowComplete [some a, some b, none] = false) := by
  constructor
  · intro src it df
    exact ⟨fun h => (assemble_shape_ok_shape h).1,
      fun h => (assemble_shape_ok_shape h).1⟩
  · intro a b ha hb hsa hsb
    have hdata : (a ++ " " ++ b).data = a.data ++ ' ' :: b.data := by
      simp [String.data_append]
    have hsplit : pySplit ' ' (a ++ " " ++ b).data = [a.data, b.data] := by
      rw [hdata, pySplit_append (fun c hc => by rintro rfl; exact hsa hc),
        pySplit_sepFree (fun c hc => by rintro rfl; exact hsb hc)]
    constructor
    · unfold parseLine
      rw [if_neg (by rw [hdata]; simp)]
      rw [hsplit]
      have h0 : ([a.data, b.data] : List (List Char)).length - 3 = 0 := by simp
      rw [h0, List.drop_zero]
      rw [parseCells_float (by
        intro t ht
        rcases List.mem_cons.mp ht with rfl | ht2
        · exact ha
        · rcases List.mem_singleton.mp ht2 with rfl
          exact hb)]
      rfl
    · rfl

theorem C7_dimensionality_witness :
    parseLine 3 ("0.1" ++ " " ++ "0.2") = .ok (some [some "0.1", some "0.2", none]) ∧
      rowComplete [some "0.1", some "0.2", none] = false :=
  C7_dimensionality.2 "0.1" "0.2" (by decide) (by decide) (by decide) (by decide)

/-- C8: the pipeline output is a pure function of the set of source files:
for any two enumerations of the same directory (glob returns files in
arbitrary order; a directory has distinct file names), `process_shape`
produces identical results, so re-running it over unchanged sources
rewrites the value-identical artifact (writes are idempotent
overwrites). -/
theorem C8_deterministic (src1 src2 : List (String × List String))
    (store : String → Option DF) (it : Nat) (flag : Bool)
    (hperm : src1.Perm src2)
    (hnodup : (src1.map Prod.fst).Nodup) :
    process_shape src1 store it flag = process_shape src2 store it flag := by
  have hm : matchedFiles src1 it = matchedFiles src2 it := by
    have hpf : (src1.filter (fun f => startsWithL (base_name it).data f.1.data)).Perm
        (src2.filter (fun f => startsWithL (base_name it).data f.1.data)) :=
      hperm.filter _
    have hA : (matchedFiles src1 it).Perm (matchedFiles src2 it) := by
      unfold matchedFiles
      exact (List.perm_insertionSort nameLe _).trans
        (hpf.trans (List.perm_insertionSort nameLe _).symm)
    have hne1 : List.Pairwise (fun f g : String × List String => f.1 ≠ g.1) src1 :=
      List.pairwise_map.mp hnodup
    have hnef : List.Pairwise (fun f g : String × List String => f.1 ≠ g.1)
        (src1.filter (fun f => startsWithL (base_name it).data f.1.data)) :=
      List.Pairwise.sublist (List.filter_sublist src1) hne1
    have hperm_m1 : (matchedFiles src1 it).Perm
        (src1.filter (fun f => startsWithL (base_name it).data f.1.data)) :=
      List.perm_insertionSort nameLe _
    have hne_m1 : List.Pairwise (fun f g : String × List String => f.1 ≠ g.1)
        (matchedFiles src1 it) :=
      (List.Perm.pairwise_iff (fun h => Ne.symm h) hperm_m1).mpr hnef
    have hne_m2 : List.Pairwise (fun f g : String × List String => f.1 ≠ g.1)
        (matchedFiles src2 it) :=
      (List.Perm.pairwise_iff (fun h => Ne.symm h) hA).mp hne_m1
    have hs1 : List.Sorted nameLe (matchedFiles src1 it) :=
      List.sorted_insertionSort nameLe _
    have hs2 : List.Sorted nameLe (matchedFiles src2 it) :=
      List.sorted_insertionSort nameLe _
    exact List.eq_of_perm_of_sorted hA
      (sorted_nameLt_of_sorted_nameLe hs1 hne_m1)
      (sorted_nameLt_of_sorted_nameLe hs2 hne_m2)
  unfold process_shape assemble_shape
  rw [hm]

theorem C8_deterministic_witness :
    process_shape
        [("points_000005_n001.txt", ["0.3 0.4"]), ("points_000005_n000.txt", ["0.1 0.2"])]
        (fun _ => none) 5 true =
      process_shape
        [("points_000005_n000.txt", ["0.1 0.2"]), ("points_000005_n001.txt", ["0.3 0.4"])]
        (fun _ => none) 5 true :=
  C8_deterministic
    [("points_000005_n001.txt", ["0.3 0.4"]), ("points_000005_n000.txt", ["0.1 0.2"])]
    [("points_000005_n000.txt", ["0.1 0.2"]), ("points_000005_n001.txt", ["0.3 0.4"])]
    (fun _ => none) 5 true (by decide) (by decide)

/-- C6: with at least one matching shard file and every matched file
parsing successfully (file `f` parsing to row list `R f`),
`assemble_shape` concatenates the per-file cleaned row lists following
the strictly-ascending-by-name enumeration `fl` of the matching files —
ascending lexicographic filename order — preserving each file's internal
row order, and the returned table's row index is exactly the contiguous
range `0..N-1` (per-file indices are discarded). -/
theorem C6_concat_order (src fl : List (String × List String)) (it : Nat)
    (flag : Bool) (R : String × List String → List (List (Option String)))
    (hperm : fl.Perm (src.filter (fun f => startsWithL (base_name it).data f.1.data)))
    (hsort : List.Pairwise nameLt fl)
    (hne : fl ≠ [])
    (hread : ∀ f ∈ fl, read_csv (columnsFor flag) f.2 =
      .ok ⟨columnsFor flag, "float32", (R f).enum⟩) :
    ∃ df : DF, assemble_shape src it flag = .ok df ∧
      df.rows.map Prod.snd = (fl.map (fun f => (R f).filter rowComplete)).flatten ∧
      df.rows.map Prod.fst = List.range df.rows.length := by
  have hasm := assemble_shape_eq R (matchedFiles_eq hperm hsort) hne hread
  refine ⟨_, hasm, ?_, ?_⟩
  · exact List.enum_map_snd _
  · rw [List.enum_map_fst, List.enum_length]

theorem C6_concat_order_witness :
    ∃ df : DF,
      assemble_shape
          [("points_000120_n001.txt", ["0.7 0.8"]),
           ("points_000120_n000.txt", ["0.1 0.2", "", "0.3 0.4"])] 120 true = .ok df ∧
      df.rows.map Prod.snd =
        (([("points_000120_n000.txt", ["0.1 0.2", "", "0.3 0.4"]),
           ("points_000120_n001.txt", ["0.7 0.8"])] :
            List (String × List String)).map
          (fun f => (goodRows f.2).filter rowComplete)).flatten ∧
      df.rows.map Prod.fst = List.range df.rows.length :=
  C6_concat_order
    [("points_000120_n001.txt", ["0.7 0.8"]),
     ("points_000120_n000.txt", ["0.1 0.2", "", "0.3 0.4"])]
    [("points_000120_n000.txt", ["0.1 0.2", "", "0.3 0.4"]),
     ("points_000120_n001.txt", ["0.7 0.8"])]
    120 true (fun f => goodRows f.2)
    (by decide) (by decide) (by decide)
    (by intro f hf; fin_cases hf <;> rfl)

/-- C3: on a source directory whose files all follow the fixed naming
pattern `points_` ++ (6-digit iteration) ++ `_n` ++ (3-digit process) ++
`.txt` with distinct file names, `get_iterations` succeeds and returns
exactly the iteration numbers for which a process-0 shard file exists, as
integers sorted ascending with no duplicates (the empty list when no such
file exists). -/
theorem C3_discovery (src : List (String × List String))
    (hcanon : ∀ f ∈ src, ∃ it proc : Nat, proc < 1000 ∧ f.1 = mkName it proc)
    (hnodup : (src.map Prod.fst).Nodup) :
    ∃ l : List Int,
      get_iterations src = .ok l ∧
      (∀ x ∈ l, ∃ it : Nat, x = (it : Int) ∧ mkName it 0 ∈ src.map Prod.fst) ∧
      (∀ it : Nat, mkName it 0 ∈ src.map Prod.fst → (it : Int) ∈ l) ∧
      l.Sorted (· ≤ ·) ∧ l.Nodup := by
  have hcanon0 : ∀ n ∈ (src.map Prod.fst).filter
      (fun n => endsWithL "_n000.txt".data n.data && !startsWithL ".".data n.data),
      ∃ it : Nat, n = mkName it 0 := by
    intro n hn
    obtain ⟨hmem, hcond⟩ := List.mem_filter.mp hn
    obtain ⟨f, hf, hfn⟩ := List.mem_map.mp hmem
    obtain ⟨it, proc, hproc, hfeq⟩ := hcanon f hf
    subst hfn
    rw [hfeq] at hcond ⊢
    refine ⟨it, ?_⟩
    rw [(cond_mkName hproc).mp hcond]
  have hextract : extractIterations ((src.map Prod.fst).filter
      (fun n => endsWithL "_n000.txt".data n.data && !startsWithL ".".data n.data)) =
      .ok (((src.map Prod.fst).filter
        (fun n => endsWithL "_n000.txt".data n.data &&
          !startsWithL ".".data n.data)).map iterOf) :=
    extractIterations_ok (fun n hn => (hcanon0 n hn).elim (fun it hit => ⟨it, 0, hit⟩))
  have hget : get_iterations src = .ok (List.insertionSort (· ≤ ·)
      (((src.map Prod.fst).filter
        (fun n => endsWithL "_n000.txt".data n.data &&
          !startsWithL ".".data n.data)).map iterOf)) := by
    unfold get_iterations
    rw [hextract]
  have hperm := List.perm_insertionSort (α := Int) (· ≤ ·)
    (((src.map Prod.fst).filter
      (fun n => endsWithL "_n000.txt".data n.data &&
        !startsWithL ".".data n.data)).map iterOf)
  refine ⟨_, hget, ?_, ?_, ?_, ?_⟩
  · intro x hx
    have hx2 := hperm.mem_iff.mp hx
    obtain ⟨n, hn, hxn⟩ := List.mem_map.mp hx2
    obtain ⟨it, rfl⟩ := hcanon0 n hn
    rw [iterOf_mkName] at hxn
    exact ⟨it, hxn.symm, (List.mem_filter.mp hn).1⟩
  · intro it hmem
    have hcond : (endsWithL "_n000.txt".data (mkName it 0).data &&
        !startsWithL ".".data (mkName it 0).data) = true :=
      (cond_mkName (by norm_num)).mpr rfl
    have hfilt : mkName it 0 ∈ (src.map Prod.fst).filter
        (fun n => endsWithL "_n000.txt".data n.data && !startsWithL ".".data n.data) :=
      List.mem_filter.mpr ⟨hmem, hcond⟩
    exact hperm.mem_iff.mpr
      (List.mem_map.mpr ⟨mkName it 0, hfilt, iterOf_mkName it 0⟩)
  · exact List.sorted_insertionSort _ _
  · have hfnd := hnodup.filter
      (fun n => endsWithL "_n000.txt".data n.data && !startsWithL ".".data n.data)
    have hmnd : ((((src.map Prod.fst).filter
        (fun n => endsWithL "_n000.txt".data n.data &&
          !startsWithL ".".data n.data))).map iterOf).Nodup := by
      refine List.Nodup.map_on ?_ hfnd
      intro x hx y hy hxy
      obtain ⟨itx, rfl⟩ := hcanon0 x hx
      obtain ⟨ity, rfl⟩ := hcanon0 y hy
      rw [iterOf_mkName, iterOf_mkName] at hxy
      rw [Int.natCast_inj.mp hxy]
    exact hperm.nodup_iff.mpr hmnd

theorem C3_discovery_witness :
    ∃ l : List Int,
      get_iterations [("points_000020_n000.txt", []), ("points_000010_n000.txt", []),
        ("points_000010_n001.txt", [])] = .ok l ∧
      (∀ x ∈ l, ∃ it : Nat, x = (it : Int) ∧
        mkName it 0 ∈ ([("points_000020_n000.txt", []), ("points_000010_n000.txt", []),
          ("points_000010_n001.txt", [])] :
            List (String × List String)).map Prod.fst) ∧
      (∀ it : Nat,
        mkName it 0 ∈ ([("points_000020_n000.txt", []), ("points_000010_n000.txt", []),
          ("points_000010_n001.txt", [])] :
            List (String × List String)).map Prod.fst → (it : Int) ∈ l) ∧
      l.Sorted (· ≤ ·) ∧ l.Nodup :=
  C3_discovery
    [("points_000020_n000.txt", []), ("points_000010_n000.txt", []),
      ("points_000010_n001.txt", [])]
    (by
      intro f hf
      fin_cases hf
      · exact ⟨20, 0, by norm_num, rfl⟩
      · exact ⟨10, 0, by norm_num, rfl⟩
      · exact ⟨10, 1, by norm_num, rfl⟩)
    (by decide)
